import Mathlib

/-!
Shallow embedding of `src/config.py` (DORA metrics derived from Azure DevOps
build timelines) and proofs about it.

Modelling conventions:
* Timestamps are integers counting microseconds since the Unix epoch
  (Python `datetime` values have microsecond resolution, and `datetime`
  subtraction is exact integer arithmetic on that representation).
* Python exceptions are modelled with `Except Unit`: `.error ()` marks an
  exception raised by the modelled code and not caught by it.
* Python strings are Lean `String`s; `None` is `Option.none`.
-/

instance {ε α : Type} [DecidableEq ε] [DecidableEq α] : DecidableEq (Except ε α) :=
  fun a b =>
    match a, b with
    | .ok x, .ok y =>
      if h : x = y then .isTrue (by rw [h]) else .isFalse (by intro hc; cases hc; exact h rfl)
    | .error x, .error y =>
      if h : x = y then .isTrue (by rw [h]) else .isFalse (by intro hc; cases hc; exact h rfl)
    | .ok _, .error _ => .isFalse (by intro hc; cases hc)
    | .error _, .ok _ => .isFalse (by intro hc; cases hc)

/-- Python truthiness of an optional string (`None` and `""` are falsy). -/
def pyTruthy : Option String → Bool
  | none => false
  | some s => s ≠ ""

/-- Python `a or b` for optional strings: `a` if truthy, else `b`. -/
def pyOrStr (a b : Option String) : Option String :=
  if pyTruthy a then a else b

/-- Python `(x or "")` for an optional string. -/
def pyOrEmpty : Option String → String
  | none => ""
  | some s => s

/-- Python substring containment `sub in s` on character lists. -/
def listHas (sub : List Char) : List Char → Bool
  | [] => sub.isEmpty
  | c :: rest => sub.isPrefixOf (c :: rest) || listHas sub rest

/-- Python substring containment `sub in hay` on strings. -/
def strHas (hay sub : String) : Bool := listHas sub.data hay.data

/-- Python `s.lower()` (ASCII model, via `Char.toLower`). -/
def pyLower (s : String) : String := ⟨s.data.map Char.toLower⟩

/-- Round half to even of the exact fraction `a / b` (for `b > 0`): Python's
`round` on that rational value.  `a.fdiv b` is its floor and `a.emod b ∈
[0, b)` its fractional part scaled by `b`; the fractional part is compared
with `1/2` by comparing `2 * (a.emod b)` with `b`. -/
def roundHalfEvenDiv (a b : ℤ) : ℤ :=
  let f := a.fdiv b
  let r := a.emod b
  if 2 * r < b then f
  else if b < 2 * r then f + 1
  else if f % 2 = 0 then f else f + 1

/-- Python `round(q, 2)` on an exact rational (`q * 100 = q.num * 100 / q.den`
rounded half to even, divided by `100` again). -/
def pyRound2 (q : ℚ) : ℚ := (roundHalfEvenDiv (q.num * 100) (q.den : ℤ) : ℚ) / 100

/-- Python `int(x)` applied to `timedelta.total_seconds()` of an exact
microsecond difference: division by `10 ^ 6` truncated toward zero. -/
def pyIntSeconds (micros : ℤ) : ℤ := micros.tdiv 1000000

/-- Python `round(x)` applied to `timedelta.total_seconds()` of an exact
microsecond difference: rounding to the nearest whole second, half to even. -/
def pyRoundSeconds (micros : ℤ) : ℤ := roundHalfEvenDiv micros 1000000

/-! ### Time utilities (`utc`, `day_key` from `src/config.py`) -/

/-- The numeral character of a decimal digit. -/
def digitChar (n : Nat) : Char := Char.ofNat (48 + n)

/-- Decimal value of a numeral character, `none` for non-digits. -/
def charVal (c : Char) : Option Nat :=
  if 48 ≤ c.toNat ∧ c.toNat ≤ 57 then some (c.toNat - 48) else none

/-- Parse exactly two decimal digits. -/
def parse2 : List Char → Option (Nat × List Char)
  | a :: b :: rest =>
    match charVal a, charVal b with
    | some x, some y => some (10 * x + y, rest)
    | _, _ => none
  | _ => none

/-- Parse exactly four decimal digits. -/
def parse4 : List Char → Option (Nat × List Char)
  | a :: b :: c :: d :: rest =>
    match charVal a, charVal b, charVal c, charVal d with
    | some x, some y, some z, some w => some (((x * 10 + y) * 10 + z) * 10 + w, rest)
    | _, _, _, _ => none
  | _ => none

/-- Consume an expected character. -/
def expectCh (c : Char) : List Char → Option (List Char)
  | x :: rest => if x = c then some rest else none
  | [] => none

/-- Greedily take leading decimal digits. -/
def takeDigits : List Char → List Nat × List Char
  | [] => ([], [])
  | c :: rest =>
    match charVal c with
    | some d => let p := takeDigits rest; (d :: p.1, p.2)
    | none => ([], c :: rest)

/-- Microsecond value of a fractional-seconds digit list; digits beyond the
sixth are truncated, as `datetime.fromisoformat` does. -/
def fracMicros (ds : List Nat) : Nat :=
  let ds6 := ds.take 6
  (ds6.foldl (fun a d => a * 10 + d) 0) * 10 ^ (6 - ds6.length)

/-- Parse an optional fractional-seconds part (a `.` must be followed by at
least one digit). -/
def parseFrac : List Char → Option (Nat × List Char)
  | [] => some (0, [])
  | c :: rest =>
    if c = '.' then
      match takeDigits rest with
      | ([], _) => none
      | (ds, r) => some (fracMicros ds, r)
    else some (0, c :: rest)

/-- Parse a trailing UTC-offset suffix `±HH:MM`; `some none` when the input is
empty (a naive datetime).  The offset must be strictly less than 24 hours and
have minutes below 60, as `datetime.timezone` requires. -/
def parseOff : List Char → Option (Option Int)
  | [] => some none
  | c :: rest =>
    if c = '+' ∨ c = '-' then
      match parse2 rest with
      | some (h, r1) =>
        match expectCh ':' r1 with
        | some r2 =>
          match parse2 r2 with
          | some (m, r3) =>
            if r3 = [] ∧ m ≤ 59 ∧ h * 60 + m < 24 * 60 then
              some (some ((if c = '-' then -1 else 1) * ((h : Int) * 3600 + (m : Int) * 60) * 1000000))
            else none
          | none => none
        | none => none
      | none => none
    else none

/-- Number of days in a month of the Gregorian calendar. -/
def daysInMonth (y m : Nat) : Nat :=
  if m = 2 then (if y % 4 = 0 ∧ (y % 100 ≠ 0 ∨ y % 400 = 0) then 29 else 28)
  else if m = 4 ∨ m = 6 ∨ m = 9 ∨ m = 11 then 30
  else 31

/-- Days from 1970-01-01 to the civil date `y-m-d` (proleptic Gregorian). -/
def daysFromCivil (y : Int) (m d : Nat) : Int :=
  let y2 := if m ≤ 2 then y - 1 else y
  let era := Int.fdiv y2 400
  let yoe := y2 - era * 400
  let mp : Int := if 2 < m then (m : Int) - 3 else (m : Int) + 9
  let doy := (153 * mp + 2).fdiv 5 + (d : Int) - 1
  let doe := yoe * 365 + yoe.fdiv 4 - yoe.fdiv 100 + doy
  era * 146097 + doe - 719468

/-- Parse the `YYYY-MM-DD` date part. -/
def parseDate (l : List Char) : Option ((Nat × Nat × Nat) × List Char) := do
  let (y, l1) ← parse4 l
  let l2 ← expectCh '-' l1
  let (mo, l3) ← parse2 l2
  let l4 ← expectCh '-' l3
  let (d, l5) ← parse2 l4
  some ((y, mo, d), l5)

/-- Parse the `HH:MM:SS[.ffffff]` time part, yielding microseconds since
midnight. -/
def parseTime (l : List Char) : Option (Nat × List Char) := do
  let (h, l1) ← parse2 l
  let l2 ← expectCh ':' l1
  let (mi, l3) ← parse2 l2
  let l4 ← expectCh ':' l3
  let (s, l5) ← parse2 l4
  let (us, l6) ← parseFrac l5
  if h ≤ 23 ∧ mi ≤ 59 ∧ s ≤ 59 then
    some ((h * 3600 + mi * 60 + s) * 1000000 + us, l6)
  else none

/-- Model of `datetime.fromisoformat` restricted to the
`YYYY-MM-DDTHH:MM:SS[.ffffff][±HH:MM]` shape (the shape of the timestamps this
program consumes).  Returns the naive timestamp in microseconds together with
the explicit UTC offset in microseconds when one is present; `none` models a
raised `ValueError`. -/
def fromIso (l : List Char) : Option (Int × Option Int) := do
  let (ymd, l1) ← parseDate l
  let l2 ← expectCh 'T' l1
  let (tod, l3) ← parseTime l2
  let off ← parseOff l3
  if 1 ≤ ymd.1 ∧ 1 ≤ ymd.2.1 ∧ ymd.2.1 ≤ 12 ∧ 1 ≤ ymd.2.2 ∧ ymd.2.2 ≤ daysInMonth ymd.1 ymd.2.1 then
    some (daysFromCivil (ymd.1 : Int) ymd.2.1 ymd.2.2 * 86400000000 + (tod : Int), off)
  else none

/-- Model of `dt_str.replace("Z", "+00:00")` as called by `utc`: every `Z`
character is replaced by the six characters `+00:00`. -/
def replaceZ : List Char → List Char
  | [] => []
  | c :: rest =>
    if c = 'Z' then '+' :: '0' :: '0' :: ':' :: '0' :: '0' :: replaceZ rest
    else c :: replaceZ rest

/-- `utc` from `src/config.py`: a falsy input (`None` or `""`) yields `None`;
otherwise the string is parsed (an unparseable string raises `ValueError`,
modelled as `.error ()`) and the instant is normalised to UTC.  A naive
timestamp (no offset) is interpreted in the system's local timezone, whose UTC
offset in microseconds is the `loc` parameter (`datetime.astimezone`
semantics for naive datetimes). -/
def utc (loc : Int) : Option String → Except Unit (Option Int)
  | none => .ok none
  | some s =>
    if s = "" then .ok none
    else
      match fromIso (replaceZ s.data) with
      | some (naive, some off) => .ok (some (naive - off))
      | some (naive, none) => .ok (some (naive - loc))
      | none => .error ()

/-- `day_key` from `src/config.py`: the UTC calendar day of a timestamp,
as a count of days since the epoch (the `YYYY-MM-DD` key strings of the
source order identically to these day numbers). -/
def day_key (tUtc : Int) : Int := Int.fdiv tUtc 86400000000

/-! ### Repository descriptors and GitHub identity resolution -/

/-- The `properties` bag of a repository descriptor; only the keys the program
reads are modelled, each `none` when absent. -/
structure RepoProps where
  fullName : Option String
  full_name : Option String
  repoFullName : Option String
  repositoryFullName : Option String
  apiUrl : Option String
  cloneUrl : Option String
deriving DecidableEq

/-- A repository descriptor (`build["repository"]`); `type` is the provider
kind string. -/
structure Repo where
  type : Option String
  id : Option String
  name : Option String
  url : Option String
  properties : Option RepoProps
deriving DecidableEq

/-- `repo.get(...)` through the `build.get("repository") or {}` idiom: an
absent or empty descriptor reads as all-`None`. -/
def rGet (f : Repo → Option String) (r : Option Repo) : Option String := r.bind f

/-- `(repo.get("properties") or {}).get(...)`: an absent properties bag reads
as all-`None`. -/
def pGet (f : RepoProps → Option String) (p : Option RepoProps) : Option String := p.bind f

/-- The properties bag of an optional descriptor. -/
def propsOf (r : Option Repo) : Option RepoProps := r.bind Repo.properties

/-- Drop everything up to and including the first occurrence of `pat`;
`none` when `pat` does not occur. -/
def afterSub (pat : List Char) : List Char → Option (List Char)
  | [] => if pat.isEmpty then some [] else none
  | c :: rest =>
    if pat.isPrefixOf (c :: rest) then some ((c :: rest).drop pat.length)
    else afterSub pat rest

/-- The path component of a URL as `urllib.parse.urlparse(u).path` computes it
for the URLs this program sees: everything after the `scheme://authority`
prefix (when present) up to the first `?` or `#`. -/
def urlPath (u : String) : String :=
  let l := u.data
  let body :=
    match afterSub ("://".data) l with
    | some rest => rest.dropWhile (fun c => c != '/')
    | none => l
  ⟨body.takeWhile (fun c => !(c == '?' || c == '#'))⟩

/-- Python `s.strip("/")`. -/
def stripSlashes (s : String) : String :=
  ⟨((s.data.dropWhile (· == '/')).reverse.dropWhile (· == '/')).reverse⟩

/-- Python `s.rstrip("/")`. -/
def rstripSlash (s : String) : String :=
  ⟨(s.data.reverse.dropWhile (· == '/')).reverse⟩

/-- The `path.endswith(".git")` → `path[:-4]` step of `extract_owner_repo`. -/
def stripDotGit (s : String) : String :=
  if (".git".data).isSuffixOf s.data then ⟨s.data.take (s.data.length - 4)⟩ else s

/-- Match of `re.search(r"/repos/([^/]+/[^/]+)", s)` anchored at the head of
`l`: the literal `/repos/` followed by two non-empty slash-free segments;
returns the capture group. -/
def reposSegAt (l : List Char) : Option (List Char) :=
  if ("/repos/".data).isPrefixOf l then
    let rest := l.drop 7
    let seg1 := rest.takeWhile (fun c => c != '/')
    if seg1.isEmpty then none
    else
      match rest.drop seg1.length with
      | '/' :: r2 =>
        let seg2 := r2.takeWhile (fun c => c != '/')
        if seg2.isEmpty then none else some (seg1 ++ '/' :: seg2)
      | _ => none
  else none

/-- `re.search(r"/repos/([^/]+/[^/]+)", s)`: leftmost match, returning the
capture group. -/
def searchReposSeg : List Char → Option (List Char)
  | [] => none
  | c :: rest =>
    match reposSegAt (c :: rest) with
    | some g => some g
    | none => searchReposSeg rest

/-- The `if v and "/" in v` filter used by `extract_owner_repo`. -/
def slashHit (v : Option String) : Option String :=
  match v with
  | some s => if s ≠ "" ∧ strHas s "/" then some s else none
  | none => none

/-- The full-name-style property scan of `extract_owner_repo`, in source
order (`fullName`, `full_name`, `repoFullName`, `repositoryFullName`). -/
def fullNameHit (p : Option RepoProps) : Option String :=
  (slashHit (pGet RepoProps.fullName p)).orElse fun _ =>
  (slashHit (pGet RepoProps.full_name p)).orElse fun _ =>
  (slashHit (pGet RepoProps.repoFullName p)).orElse fun _ =>
  slashHit (pGet RepoProps.repositoryFullName p)

/-- The API-URL regex step of `extract_owner_repo` (`props.get("apiUrl") or
repo.get("url")`, searched for a `/repos/<owner>/<repo>` segment). -/
def apiUrlHit (api_url : Option String) : Option String :=
  if pyTruthy api_url then (searchReposSeg (pyOrEmpty api_url).data).map (fun g => (⟨g⟩ : String))
  else none

/-- The clone-URL step of `extract_owner_repo`: the URL path, stripped of
surrounding slashes and a trailing `.git`, accepted when it contains a
slash. -/
def cloneHit (clone : Option String) : Option String :=
  if pyTruthy clone then
    let path := stripDotGit (stripSlashes (urlPath (pyOrEmpty clone)))
    if strHas path "/" then some path else none
  else none

/-- `extract_owner_repo` from `src/config.py`. -/
def extract_owner_repo (repo : Option Repo) : Option String :=
  match repo with
  | none => none
  | some r =>
    (fullNameHit r.properties).orElse fun _ =>
    (apiUrlHit (pyOrStr (pGet RepoProps.apiUrl r.properties) r.url)).orElse fun _ =>
    (cloneHit (pGet RepoProps.cloneUrl r.properties)).orElse fun _ =>
    (slashHit r.name).orElse fun _ =>
    slashHit r.id

/-- `re.search(r"/repos/[^/]+/[^/]+$", s)` as a Boolean: the string ends in
`/repos/<seg>/<seg>` with both segments non-empty and slash-free. -/
def endsWithReposPair (l : List Char) : Bool :=
  let rev := l.reverse
  let seg2 := rev.takeWhile (fun c => c != '/')
  if seg2.isEmpty then false
  else
    match rev.drop seg2.length with
    | '/' :: r1 =>
      let seg1 := r1.takeWhile (fun c => c != '/')
      if seg1.isEmpty then false
      else ("/repos/".data.reverse).isPrefixOf (r1.drop seg1.length)
    | _ => false

/-- `re.search(r"^(https?://[^/]+)/repos/([^/]+/[^/]+)", s)`: the two capture
groups when the string starts with an `http(s)` scheme, a non-empty host and a
`/repos/<owner>/<repo>` segment. -/
def headHostRepos (l : List Char) : Option (List Char × List Char) :=
  let afterScheme : Option (List Char × List Char) :=
    if ("https://".data).isPrefixOf l then some ("https://".data, l.drop 8)
    else if ("http://".data).isPrefixOf l then some ("http://".data, l.drop 7)
    else none
  match afterScheme with
  | none => none
  | some (sch, rest) =>
    let host := rest.takeWhile (fun c => c != '/')
    if host.isEmpty then none
    else
      match reposSegAt (rest.drop host.length) with
      | some g => some (sch ++ host, g)
      | none => none

/-- `github_commit_api` from `src/config.py`. -/
def github_commit_api (owner_repo sha : String) (props : Option RepoProps) : String :=
  let api_url := pGet RepoProps.apiUrl props
  if pyTruthy api_url then
    let base := rstripSlash (pyOrEmpty api_url)
    if endsWithReposPair base.data then base ++ "/commits/" ++ sha
    else
      match headHostRepos base.data with
      | some (g1, g2) => (⟨g1⟩ : String) ++ "/repos/" ++ (⟨g2⟩ : String) ++ "/commits/" ++ sha
      | none => "https://api.github.com/repos/" ++ owner_repo ++ "/commits/" ++ sha
  else "https://api.github.com/repos/" ++ owner_repo ++ "/commits/" ++ sha

/-! ### Timeline records and per-build classification -/

/-- A node of a build timeline (an entry of `timeline["records"]`); only the
fields the program reads are modelled. -/
structure TimelineRecord where
  type : Option String
  name : Option String
  result : Option String
  finishTime : Option String
deriving DecidableEq

/-- `has_job` from `main`: the first record of kind `Job` whose lowercased
name contains the lowercased substring. -/
def has_job (recs : List TimelineRecord) (sub : String) : Option TimelineRecord :=
  let s := pyLower sub
  recs.find? (fun r => r.type == some "Job" && strHas (pyLower (pyOrEmpty r.name)) s)

/-- `has_stage` from `main`: the first record of kind `Stage` whose lowercased
name contains the lowercased substring (computed but unused by `main`). -/
def has_stage (recs : List TimelineRecord) (sub : String) : Option TimelineRecord :=
  let s := pyLower sub
  recs.find? (fun r => r.type == some "Stage" && strHas (pyLower (pyOrEmpty r.name)) s)

/-- The `elif rollback ...` arm of the failure branch of `main`. -/
def rollbackArm (loc : Int) (rollback : Option TimelineRecord) :
    Except Unit (Bool × Option Int) :=
  match rollback with
  | some rb =>
    if pyLower (pyOrEmpty rb.result) = "succeeded" then
      (utc loc rb.finishTime).map (fun t => (true, t))
    else .ok (false, none)
  | none => .ok (false, none)

/-- The `(failed_change, fail_t)` computation of `main` (the validate-failed /
rollback-succeeded `if`/`elif` chain, lines 285–289). -/
def failBranch (loc : Int) (validate_swap rollback : Option TimelineRecord) :
    Except Unit (Bool × Option Int) :=
  match validate_swap with
  | some v =>
    if pyLower (pyOrEmpty v.result) = "failed" then
      (utc loc v.finishTime).map (fun t => (true, t))
    else rollbackArm loc rollback
  | none => rollbackArm loc rollback

/-- The per-build timeline classification of `main` (lines 257–291): the
deployment timestamp to record (if any) and the failure timestamp to record
(if any) for a single build's timeline.  Note that in the source the failure
branch is guarded only by the swap job having succeeded, not by a deployment
having been recorded. -/
def classify (loc : Int) (recs : List TimelineRecord) :
    Except Unit (Option Int × Option Int) :=
  let swap := has_job recs "swap"
  let validate_swap := has_job recs "validate"
  let rollback := has_job recs "rollback"
  let _ := has_stage recs "deploylive"
  match swap with
  | some sw =>
    if pyLower (pyOrEmpty sw.result) = "succeeded" then do
      let dep_time ← utc loc sw.finishTime
      let fp ← failBranch loc validate_swap rollback
      .ok (dep_time, if fp.1 then fp.2 else none)
    else .ok (none, none)
  | none => .ok (none, none)

/-- A build as consumed by `main`: its id, source commit, repository
descriptor, and its fetched timeline records. -/
structure Build where
  id : Int
  sourceVersion : Option String
  repo : Option Repo
  recs : List TimelineRecord
deriving DecidableEq

/-- An entry of the `deployments`/`failures` collections of `main`
(`{"buildId": ..., "when": ...}`). -/
structure Ev where
  buildId : Int
  when : Int
deriving DecidableEq

/-- One iteration of the build loop of `main`: the deployment and failure
entries this build contributes, plus the `[DEPLOY]` console trace (emitted
when verbose and a deployment was recorded; its text is abbreviated here). -/
def classifyB (loc : Int) (verbose : Bool) (b : Build) :
    Except Unit ((Option Ev × Option Ev) × List String) :=
  (classify loc b.recs).map (fun r =>
    ((r.1.map (fun t => ⟨b.id, t⟩), r.2.map (fun t => ⟨b.id, t⟩)),
     if verbose && r.1.isSome then ["[DEPLOY] build " ++ toString b.id] else []))

/-- The build loop of `main` (lines 252–291): the `deployments` and
`failures` collections, in build order, plus the console trace. -/
def collectEvents (loc : Int) (verbose : Bool) :
    List Build → Except Unit ((List Ev × List Ev) × List String)
  | [] => .ok (([], []), [])
  | b :: bs => do
    let r ← classifyB loc verbose b
    let rest ← collectEvents loc verbose bs
    .ok ((r.1.1.toList ++ rest.1.1, r.1.2.toList ++ rest.1.2), r.2 ++ rest.2)

/-! ### Commit-time resolution (`get_commit_time`) -/

/-- Outcome of the Azure-Repos commit request (`ADO.get_ado_commit`): the
commit's author/committer dates on success, an HTTP-status failure
(`requests.HTTPError` raised by `raise_for_status`), or a transport/timeout
failure (a `requests.RequestException` that is not an `HTTPError`). -/
inductive AdoNet
  | ok (authorDate committerDate : Option String)
  | httpErr
  | transErr
deriving DecidableEq

/-- The `commit` object of a GitHub commit-API response body. -/
structure GhBody where
  authorDate : Option String
  committerDate : Option String
deriving DecidableEq

/-- Outcome of the GitHub commit request (`requests.get`): a response with a
status code, or a transport/timeout failure (`requests.RequestException`). -/
inductive GhNet
  | resp (status : Nat) (body : GhBody)
  | transErr
deriving DecidableEq

/-- `get_commit_time` from `src/config.py`.  `adoNet`/`ghNet` are the outcomes
the network would produce for this build's commit lookup; the result is the
resolved commit time together with the diagnostic log, and `.error ()` models
an exception that escapes `get_commit_time` (aborting the run).  Note the
Azure branch catches only `requests.HTTPError`, while the GitHub branch
catches every `requests.RequestException`. -/
def get_commit_time (loc : Int) (b : Build) (adoNet : AdoNet) (ghNet : GhNet)
    (gh_repo_override : Option String) (verbose : Bool) :
    Except Unit (Option Int × List String) :=
  let sha := b.sourceVersion
  if ¬ pyTruthy sha then .ok (none, if verbose then ["[LEAD] no sourceVersion"] else [])
  else
    let repo := b.repo
    let rtype := pyLower (pyOrEmpty (rGet Repo.type repo))
    if strHas rtype "tfs" ∨ strHas rtype "azure" then
      let rid := rGet Repo.id repo
      if ¬ pyTruthy rid then
        .ok (none, if verbose then ["[LEAD] missing Azure Repos id"] else [])
      else
        match adoNet with
        | .ok aDate cDate =>
          let dt := pyOrStr aDate cDate
          if pyTruthy dt then (utc loc dt).map (fun t => (t, []))
          else .ok (none, [])
        | .httpErr => .ok (none, if verbose then ["[LEAD] ADO commit lookup failed"] else [])
        | .transErr => .error ()
    else if strHas rtype "github" ∨ pyTruthy gh_repo_override then
      let owner_repo := pyOrStr gh_repo_override (extract_owner_repo repo)
      if ¬ pyTruthy owner_repo then
        .ok (none, if verbose then ["[LEAD] cannot determine GitHub repo"] else [])
      else
        let api_url := github_commit_api (pyOrEmpty owner_repo) (pyOrEmpty sha) (propsOf repo)
        match ghNet with
        | .resp status body =>
          if status = 200 then
            let dt := pyOrStr body.authorDate body.committerDate
            if pyTruthy dt then (utc loc dt).map (fun t => (t, []))
            else .ok (none, [])
          else .ok (none, if verbose then ["[LEAD] GitHub API error for " ++ api_url] else [])
        | .transErr => .ok (none, if verbose then ["[LEAD] GitHub lookup failed"] else [])
    else .ok (none, if verbose then ["[LEAD] unknown repo type " ++ rtype] else [])

/-! ### Metrics engine -/

/-- `daily.setdefault(k, []).append(t)` on an insertion-ordered association
list (Python dict semantics). -/
def addDaily : List (Int × List Int) → Int → Int → List (Int × List Int)
  | [], k, t => [(k, [t])]
  | (k2, ts) :: rest, k, t =>
    if k2 = k then (k2, ts ++ [t]) :: rest else (k2, ts) :: addDaily rest k t

/-- The Deployment Frequency aggregation of `main`: group deployment times by
UTC day, sort each day's list, and order the days chronologically (the source
sorts the `YYYY-MM-DD` keys at output time, which orders like the day
numbers). -/
def mkDaily (deployments : List Ev) : List (Int × List Int) :=
  let m := deployments.foldl (fun m d => addDaily m (day_key d.when) d.when) []
  List.insertionSort (fun a b => a.1 ≤ b.1)
    (m.map (fun p => (p.1, List.insertionSort (fun a b => a ≤ b) p.2)))

/-- `cfr_pct` from `main` (line 303): `len(failures) / len(deployments) *
100.0`, with the zero-deployments guard. -/
def cfr_pct (deployments failures : List Ev) : ℚ :=
  if deployments ≠ [] then ((failures.length : ℚ) / (deployments.length : ℚ)) * 100 else 0

/-- `successes_sorted` from `main`: deployments sorted by `when` (Python's
`sorted` is stable, as is insertion sort). -/
def successes_sorted (deployments : List Ev) : List Ev :=
  List.insertionSort (fun a b => a.when ≤ b.when) deployments

/-- The change-failure-rate summary row of `main` (lines 395–402); the window
bounds and app label are external inputs and carry no logic. -/
structure CfrRow where
  totalDeployments : Nat
  failedChanges : Nat
  changeFailureRatePct : ℚ
deriving DecidableEq

/-- The change-failure-rate CSV row written by `main`. -/
def cfrSummary (deployments failures : List Ev) : CfrRow :=
  { totalDeployments := (successes_sorted deployments).length
    failedChanges := failures.length
    changeFailureRatePct := pyRound2 (cfr_pct deployments failures) }

/-- A Lead Time row of `main` (timestamps kept as microsecond instants; the
CSV renders them through `fmtiso`). -/
structure LeadRow where
  buildId : Int
  commit : Option String
  commitTime : Int
  deployTime : Int
  leadTimeSeconds : Int
deriving DecidableEq

/-- The `dep_by_build` dict of `main`: keyed by `buildId`, a later duplicate
overwriting an earlier one. -/
def dep_by_build (deployments : List Ev) (bid : Int) : Option Ev :=
  deployments.reverse.find? (fun d => d.buildId == bid)

/-- Per-build network outcomes for commit lookups, keyed by build id. -/
structure Net where
  ado : Int → AdoNet
  gh : Int → GhNet

/-- The Lead Time loop of `main` (lines 307–332): for each build owning a
deployment, resolve the commit time and emit a row when it resolves.
`leadTimeSeconds` is `int((dep_when - commit_time).total_seconds())`, i.e.
the microsecond difference divided by `10 ^ 6` truncated toward zero. -/
def leadRowsF (loc : Int) (net : Net) (gh_repo_override : Option String) (verbose : Bool)
    (deployments : List Ev) : List Build → Except Unit (List LeadRow × List String)
  | [] => .ok ([], [])
  | b :: bs =>
    match dep_by_build deployments b.id with
    | none => leadRowsF loc net gh_repo_override verbose deployments bs
    | some dep => do
      let ct ← get_commit_time loc b (net.ado b.id) (net.gh b.id) gh_repo_override verbose
      let rest ← leadRowsF loc net gh_repo_override verbose deployments bs
      let rows :=
        match ct.1 with
        | some c =>
          [{ buildId := b.id, commit := b.sourceVersion, commitTime := c,
             deployTime := dep.when, leadTimeSeconds := (dep.when - c).tdiv 1000000 }]
        | none => []
      .ok (rows ++ rest.1, ct.2 ++ rest.2)

/-- An MTTR row of `main` (`failed_deployment_recovery_time.csv`). -/
structure MttrRow where
  failedBuildId : Int
  failedAt : Int
  restoredBuildId : Int
  restoredAt : Int
  mttrSeconds : Int
deriving DecidableEq

/-- The MTTR pairing loop of `main` (lines 335–352): for each failure taken in
chronological order, the first strictly later deployment in the sorted
deployment list; failures with no such deployment yield no row. -/
def mttrRows (deployments failures : List Ev) : List MttrRow :=
  (List.insertionSort (fun a b => a.when ≤ b.when) failures).filterMap (fun f =>
    match (successes_sorted deployments).find? (fun s => decide (f.when < s.when)) with
    | some s =>
      some { failedBuildId := f.buildId, failedAt := f.when,
             restoredBuildId := s.buildId, restoredAt := s.when,
             mttrSeconds := (s.when - f.when).tdiv 1000000 }
    | none => none)

/-! ### Paginated build listing (`ADO.list_builds`) -/

/-- One page of the builds query: the `value` list (builds abstracted to ids)
and the server's `continuationToken`. -/
structure PageResp where
  value : List Int
  continuationToken : Option String
deriving DecidableEq

/-- The `while True` pagination loop of `ADO.list_builds` (lines 80–89), with
explicit fuel: the source loop re-issues the query with the returned token
until the token is falsy; `none` models not terminating within `fuel`
iterations.  `srv tok` is the server's response to the query carrying
continuation token `tok` (`none` on the first request). -/
def list_builds_loop (srv : Option String → PageResp) :
    Nat → Option String → List Int → Option (List Int)
  | 0, _, _ => none
  | fuel + 1, tok, acc =>
    let j := srv tok
    let acc2 := acc ++ j.value
    if pyTruthy j.continuationToken then
      list_builds_loop srv fuel j.continuationToken acc2
    else some acc2

/-- `ADO.list_builds` from `src/config.py` (the pagination behaviour; the
query parameters are fixed per call and do not affect the loop). -/
def list_builds (srv : Option String → PageResp) (fuel : Nat) : Option (List Int) :=
  list_builds_loop srv fuel none []

/-- The page chain a server yields from a starting token: the `value` list of
each page, following truthy continuation tokens until a falsy one. -/
inductive PageChain (srv : Option String → PageResp) : Option String → List (List Int) → Prop
  | last {tok} : pyTruthy (srv tok).continuationToken = false →
      PageChain srv tok [(srv tok).value]
  | step {tok rest} : pyTruthy (srv tok).continuationToken = true →
      PageChain srv (srv tok).continuationToken rest →
      PageChain srv tok ((srv tok).value :: rest)

/-! ### The assembled pipeline -/

/-- The computed outputs of one run (the four metric datasets plus the raw
event collections), before CSV serialisation. -/
structure Outputs where
  deployments : List Ev
  failures : List Ev
  daily : List (Int × List Int)
  cfr : CfrRow
  leadRows : List LeadRow
  mttr : List MttrRow
deriving DecidableEq

/-- The metrics pipeline of `main` once builds are fetched: classification,
daily aggregation, change failure rate, lead time and MTTR, paired with the
diagnostic log.  `verbose` gates only the log. -/
def runPipeline (loc : Int) (verbose : Bool) (builds : List Build) (net : Net)
    (gh_repo_override : Option String) : Except Unit (Outputs × List String) := do
  let ev ← collectEvents loc verbose builds
  let lr ← leadRowsF loc net gh_repo_override verbose ev.1.1 builds
  .ok ({ deployments := ev.1.1, failures := ev.1.2, daily := mkDaily ev.1.1,
         cfr := cfrSummary ev.1.1 ev.1.2, leadRows := lr.1,
         mttr := mttrRows ev.1.1 ev.1.2 }, ev.2 ++ lr.2)

/-! ### Auxiliary definitions for the claims -/

/-- The `owner_repo` computation of `get_commit_time`:
`gh_repo_override or extract_owner_repo(repo)`. -/
def resolveOwnerRepo (override : Option String) (repo : Option Repo) : Option String :=
  pyOrStr override (extract_owner_repo repo)

/-- The owner/repo resolution order as the spec states it (§4.3): explicit
override if provided; full-name-style properties; a `/repos/<owner>/<repo>`
segment of an API URL property; the clone-URL path with a trailing `.git`
stripped; then a name/id field containing a slash — first match wins. -/
def specResolveOwnerRepo (override : Option String) (repo : Option Repo) : Option String :=
  if pyTruthy override then override
  else
    (fullNameHit (propsOf repo)).orElse fun _ =>
    (apiUrlHit (pyOrStr (pGet RepoProps.apiUrl (propsOf repo)) (rGet Repo.url repo))).orElse fun _ =>
    (cloneHit (pGet RepoProps.cloneUrl (propsOf repo))).orElse fun _ =>
    (slashHit (rGet Repo.name repo)).orElse fun _ =>
    slashHit (rGet Repo.id repo)

/-- The repository-kind dispatch of `get_commit_time`: the Azure-Repos branch
is taken when the lowercased `type` contains `tfs` or `azure`. -/
def isAzureRepo (b : Build) : Prop :=
  strHas (pyLower (pyOrEmpty (rGet Repo.type b.repo))) "tfs" = true ∨
  strHas (pyLower (pyOrEmpty (rGet Repo.type b.repo))) "azure" = true

instance (b : Build) : Decidable (isAzureRepo b) := by
  unfold isAzureRepo; infer_instance

/-! ### A well-formed ISO-8601 input (for the totality of `utc`) -/

/-- An offset suffix: absent (naive), `Z`, or `±HH:MM`. -/
inductive OffSpec
  | noOffset
  | zulu
  | numeric (neg : Bool) (oh om : Nat)
deriving DecidableEq

/-- A well-formed timestamp of the modelled ISO-8601 subset
`YYYY-MM-DDTHH:MM:SS[.f...][Z|±HH:MM]`: the field values with the validity
bounds `datetime.fromisoformat` enforces, an optional run of fractional-second
digits, and an optional offset suffix. -/
structure IsoStr where
  year : Nat
  month : Nat
  day : Nat
  hour : Nat
  minute : Nat
  second : Nat
  frac : List Nat
  off : OffSpec
  year_pos : 1 ≤ year
  year_le : year ≤ 9999
  month_pos : 1 ≤ month
  month_le : month ≤ 12
  day_pos : 1 ≤ day
  day_le : day ≤ daysInMonth year month
  hour_le : hour ≤ 23
  minute_le : minute ≤ 59
  second_le : second ≤ 59
  frac_le : frac.length ≤ 6
  frac_digits : ∀ d ∈ frac, d ≤ 9
  off_ok : ∀ neg oh om, off = .numeric neg oh om → om ≤ 59 ∧ oh * 60 + om < 1440

/-- Two-digit zero-padded rendering. -/
def render2 (n : Nat) : List Char := [digitChar (n / 10), digitChar (n % 10)]

/-- Four-digit zero-padded rendering. -/
def render4 (n : Nat) : List Char :=
  [digitChar (n / 1000), digitChar (n / 100 % 10), digitChar (n / 10 % 10), digitChar (n % 10)]

/-- Render the fractional-second part (empty digit list: no part). -/
def renderFrac (ds : List Nat) : List Char :=
  if ds.isEmpty then [] else '.' :: ds.map digitChar

/-- Render the offset suffix. -/
def renderOff : OffSpec → List Char
  | .noOffset => []
  | .zulu => ['Z']
  | .numeric neg oh om => (if neg then '-' else '+') :: (render2 oh ++ ':' :: render2 om)

/-- Render a well-formed ISO-8601 timestamp string. -/
def renderIso (x : IsoStr) : String :=
  ⟨render4 x.year ++ '-' :: (render2 x.month ++ '-' :: (render2 x.day ++ 'T' ::
   (render2 x.hour ++ ':' :: (render2 x.minute ++ ':' ::
   (render2 x.second ++ (renderFrac x.frac ++ renderOff x.off))))))⟩

/-! ### Concrete inputs used by witnesses and counterexamples -/

/-- A build whose swap job succeeded without a finish time while its validate
job failed with one (C1). -/
def c1Builds : List Build :=
  [ { id := 7, sourceVersion := none, repo := none,
      recs := [ { type := some "Job", name := some "Swap Slots", result := some "succeeded",
                  finishTime := none },
                { type := some "Job", name := some "Validate Deployment", result := some "failed",
                  finishTime := some "1970-01-01T01:00:00Z" } ] } ]

/-- The collections `main` builds for `c1Builds`: no deployment, one failure. -/
def c1Out : (List Ev × List Ev) × List String := (([], [⟨7, 3600000000⟩]), [])

/-- An Azure-Repos build (C2). -/
def c2Build : Build :=
  { id := 9, sourceVersion := some "deadbeef",
    repo := some { type := some "TfsGit", id := some "rid", name := none, url := none,
                   properties := none },
    recs := [] }

/-- A GitHub repository descriptor carrying only a clone URL (C3). -/
def c3Repo : Repo :=
  { type := some "GitHub", id := none, name := none, url := none,
    properties := some { fullName := none, full_name := none, repoFullName := none,
                         repositoryFullName := none, apiUrl := none,
                         cloneUrl := some "https://github.com/acme/app.git" } }

/-- A build deployed 1.6 seconds after its commit (C3). -/
def c3Build : Build :=
  { id := 7, sourceVersion := some "abc",
    repo := some c3Repo,
    recs := [ { type := some "Job", name := some "Swap Slots", result := some "succeeded",
                finishTime := some "1970-01-01T00:00:01.6Z" } ] }

/-- Network outcomes resolving `c3Build`'s commit to the epoch (C3). -/
def c3Net : Net :=
  { ado := fun _ => .httpErr,
    gh := fun _ => .resp 200 ⟨some "1970-01-01T00:00:00Z", none⟩ }

/-- The Lead Time row the pipeline produces for `c3Build` (C3). -/
def c3Row : LeadRow :=
  { buildId := 7, commit := some "abc", commitTime := 0, deployTime := 1600000,
    leadTimeSeconds := 1 }

/-- A timeline with one succeeded swap job (C4). -/
def c4Recs : List TimelineRecord :=
  [ { type := some "Job", name := some "Swap Slots", result := some "Succeeded",
      finishTime := some "1970-01-01T00:30:00Z" } ]

/-- One deployment five seconds into the epoch (C5). -/
def c5Deps : List Ev := [⟨1, 5000000⟩]

/-- One failure one second into the epoch (C5). -/
def c5Fails : List Ev := [⟨2, 1000000⟩]

/-- The MTTR row pairing `c5Fails` with `c5Deps` (C5). -/
def c5Row : MttrRow := ⟨2, 1000000, 1, 5000000, 4⟩

/-- A three-page build server (C7). -/
def c7Srv : Option String → PageResp := fun tok =>
  match tok with
  | none => { value := [1, 2], continuationToken := some "a" }
  | some "a" => { value := [3], continuationToken := some "b" }
  | some "b" => { value := [4, 5], continuationToken := none }
  | some _ => { value := [], continuationToken := none }

/-- A GitHub repository descriptor carrying only a clone URL (C8). -/
def c8Repo : Repo :=
  { type := some "GitHub", id := none, name := none, url := none,
    properties := some { fullName := none, full_name := none, repoFullName := none,
                         repositoryFullName := none, apiUrl := none,
                         cloneUrl := some "https://github.com/acme/app.git" } }

/-! ## Theorems -/

/-- If `classify` recorded a failure, the swap job exists and succeeded, and
`utc` of its finish time evaluated to the recorded deployment slot. -/
theorem classify_fail_inv (loc : Int) (recs : List TimelineRecord)
    (dp ft : Option Int) (h : classify loc recs = .ok (dp, ft)) (hft : ft ≠ none) :
    ∃ sw, has_job recs "swap" = some sw ∧ pyLower (pyOrEmpty sw.result) = "succeeded" ∧
      utc loc sw.finishTime = .ok dp := by
  simp only [classify] at h
  split at h
  next sw hsw =>
    split at h
    next hres =>
      cases hutc : utc loc sw.finishTime with
      | error e => rw [hutc] at h; simp [Bind.bind, Except.bind] at h
      | ok dp2 =>
        rw [hutc] at h
        cases hfb : failBranch loc (has_job recs "validate") (has_job recs "rollback") with
        | error e => rw [hfb] at h; simp [Bind.bind, Except.bind] at h
        | ok fp =>
          rw [hfb] at h
          simp only [Bind.bind, Except.bind, Except.ok.injEq, Prod.mk.injEq] at h
          exact ⟨sw, hsw, hres, h.1 ▸ hutc⟩
    next hres =>
      cases h
      exact absurd rfl hft
  next hsw =>
    cases h
    exact absurd rfl hft

/-- C1 (amended): a FailureEvent is recorded only for a build whose swap job
exists and succeeded; and whenever that swap job's finish time is also
resolvable, a Deployment with the same build id is recorded.  (The original
claim — that a FailureEvent always implies a Deployment on the same build —
fails when the succeeded swap job has no resolvable finish time, see the
counterexample.) -/
theorem c1_failures_require_succeeded_swap (loc : Int) (verbose : Bool) :
    ∀ (builds : List Build) (out : (List Ev × List Ev) × List String),
      collectEvents loc verbose builds = .ok out →
      ∀ f ∈ out.1.2, ∃ b ∈ builds, b.id = f.buildId ∧
        ∃ sw, has_job b.recs "swap" = some sw ∧
          pyLower (pyOrEmpty sw.result) = "succeeded" ∧
          ∀ u : Int, utc loc sw.finishTime = .ok (some u) →
            ∃ d ∈ out.1.1, d.buildId = f.buildId ∧ d.when = u := by
  intro builds
  induction builds with
  | nil =>
    intro out h f hf
    cases h
    simp at hf
  | cons b bs ih =>
    intro out h f hf
    simp only [collectEvents] at h
    cases hcb : classifyB loc verbose b with
    | error e => rw [hcb] at h; simp [Bind.bind, Except.bind] at h
    | ok r =>
      rw [hcb] at h
      cases hrest : collectEvents loc verbose bs with
      | error e => rw [hrest] at h; simp [Bind.bind, Except.bind] at h
      | ok rest =>
        rw [hrest] at h
        simp only [Bind.bind, Except.bind, Except.ok.injEq] at h
        subst h
        dsimp only at hf
        rcases List.mem_append.mp hf with hfl | hfr
        · simp only [classifyB] at hcb
          cases hcl : classify loc b.recs with
          | error e => rw [hcl] at hcb; simp [Except.map] at hcb
          | ok cl =>
            rw [hcl] at hcb
            simp only [Except.map, Except.ok.injEq] at hcb
            subst hcb
            obtain ⟨dp0, ft0⟩ := cl
            dsimp only at hfl
            cases hft0 : ft0 with
            | none =>
              rw [hft0] at hfl
              exact absurd hfl (List.not_mem_nil f)
            | some t0 =>
              rw [hft0] at hfl
              have hfeq : f = ⟨b.id, t0⟩ := List.mem_singleton.mp hfl
              subst hfeq
              subst hft0
              obtain ⟨sw, hsw, hres, hutc⟩ :=
                classify_fail_inv loc b.recs dp0 (some t0) hcl (Option.some_ne_none t0)
              refine ⟨b, List.mem_cons_self b bs, rfl, sw, hsw, hres, ?_⟩
              intro u hu
              rw [hutc] at hu
              simp only [Except.ok.injEq] at hu
              refine ⟨⟨b.id, u⟩, ?_, rfl, rfl⟩
              apply List.mem_append_left
              rw [hu]
              simp
        · obtain ⟨b2, hb2, hid, sw, hsw, hres, himp⟩ := ih rest hrest f hfr
          refine ⟨b2, List.mem_cons_of_mem b hb2, hid, sw, hsw, hres, ?_⟩
          intro u hu
          obtain ⟨d, hd, hdid, hdw⟩ := himp u hu
          exact ⟨d, List.mem_append_right _ hd, hdid, hdw⟩

/-- C1 counterexample: on `c1Builds` — swap succeeded with no finish time,
validate failed with one — the failures collection holds an entry whose build
id appears nowhere in the (empty) deployments collection, refuting the claimed
invariant. -/
theorem c1_counterexample :
    collectEvents 0 false c1Builds = .ok c1Out ∧
      ¬(∀ f ∈ c1Out.1.2, ∃ d ∈ c1Out.1.1, d.buildId = f.buildId) := by
  constructor
  · decide
  · decide

/-- C1 witness: the amended theorem applied to the concrete run. -/
theorem c1_witness :
    collectEvents 0 false c1Builds = .ok c1Out ∧
      (∀ f ∈ c1Out.1.2, ∃ b ∈ c1Builds, b.id = f.buildId ∧
        ∃ sw, has_job b.recs "swap" = some sw ∧
          pyLower (pyOrEmpty sw.result) = "succeeded" ∧
          ∀ u : Int, utc 0 sw.finishTime = .ok (some u) →
            ∃ d ∈ c1Out.1.1, d.buildId = f.buildId ∧ d.when = u) :=
  ⟨by decide, c1_failures_require_succeeded_swap 0 false c1Builds c1Out (by decide)⟩

/-- C2 (amended): `get_commit_time` returns `None` (never an exception) on an
HTTP-status failure in the Azure-Repos branch and on any request failure
(non-200 response or transport error) in the GitHub branch — but a
transport/timeout error in the Azure-Repos branch escapes uncaught and aborts
the run, because that branch catches only `requests.HTTPError`. -/
theorem c2_commit_lookup_failures (loc : Int) (b : Build) (ovr : Option String)
    (verbose : Bool) :
    (isAzureRepo b →
       ∀ gh : GhNet, (get_commit_time loc b .httpErr gh ovr verbose).map Prod.fst = .ok none) ∧
    (¬ isAzureRepo b →
       ∀ (ado : AdoNet) (status : Nat) (body : GhBody), status ≠ 200 →
         (get_commit_time loc b ado (.resp status body) ovr verbose).map Prod.fst = .ok none) ∧
    (¬ isAzureRepo b →
       ∀ ado : AdoNet, (get_commit_time loc b ado .transErr ovr verbose).map Prod.fst = .ok none) ∧
    (isAzureRepo b → pyTruthy b.sourceVersion = true → pyTruthy (rGet Repo.id b.repo) = true →
       ∀ gh : GhNet, get_commit_time loc b .transErr gh ovr verbose = .error ()) := by
  refine ⟨?_, ?_, ?_, ?_⟩
  · intro hAz gh
    simp only [get_commit_time]
    split_ifs with h1 h2 h3 <;> simp_all [Except.map, isAzureRepo]
  · intro hAz ado status body hst
    simp only [get_commit_time]
    split_ifs <;> simp_all [Except.map, isAzureRepo]
  · intro hAz ado
    simp only [get_commit_time]
    split_ifs <;> simp_all [Except.map, isAzureRepo]
  · intro hAz hsha hrid gh
    simp only [get_commit_time]
    split_ifs <;> simp_all [Except.map, isAzureRepo]

/-- C2 counterexample: a transport error on an Azure-Repos commit lookup makes
`get_commit_time` raise (the uncaught exception aborts the run) instead of
returning `None`, refuting the claim for the Azure-Repos variant. -/
theorem c2_counterexample :
    get_commit_time 0 c2Build .transErr (.resp 200 ⟨none, none⟩) none false = .error () := by
  decide

/-- C2 witness: the amended theorem's Azure HTTP-error conjunct applied to the
concrete Azure build. -/
theorem c2_witness :
    isAzureRepo c2Build ∧
      (get_commit_time 0 c2Build .httpErr (.resp 200 ⟨none, none⟩) none false).map
        Prod.fst = .ok none :=
  ⟨by decide,
   (c2_commit_lookup_failures 0 c2Build none false).1 (by decide) (.resp 200 ⟨none, none⟩)⟩

/-- C3 (amended): every Lead Time row's `leadTimeSeconds` is the elapsed
microseconds divided by `10 ^ 6` truncated toward zero (Python
`int(...total_seconds())`) — not rounded to nearest.  (The original claim's
`round(...)` fails on fractional-second differences, see the
counterexample.) -/
theorem c3_lead_seconds_truncated (loc : Int) (net : Net) (ovr : Option String)
    (verbose : Bool) (deployments : List Ev) :
    ∀ (builds : List Build) (out : List LeadRow × List String),
      leadRowsF loc net ovr verbose deployments builds = .ok out →
      ∀ r ∈ out.1, r.leadTimeSeconds = (r.deployTime - r.commitTime).tdiv 1000000 := by
  intro builds
  induction builds with
  | nil =>
    intro out h r hr
    cases h
    simp at hr
  | cons b bs ih =>
    intro out h r hr
    simp only [leadRowsF] at h
    split at h
    next => exact ih out h r hr
    next dep hdep =>
      cases hct : get_commit_time loc b (net.ado b.id) (net.gh b.id) ovr verbose with
      | error e => rw [hct] at h; simp [Bind.bind, Except.bind] at h
      | ok ct =>
        rw [hct] at h
        cases hrest : leadRowsF loc net ovr verbose deployments bs with
        | error e => rw [hrest] at h; simp [Bind.bind, Except.bind] at h
        | ok rest =>
          rw [hrest] at h
          simp only [Bind.bind, Except.bind, Except.ok.injEq] at h
          subst h
          dsimp only at hr
          rcases List.mem_append.mp hr with hrl | hrr
          · cases hc : ct.1 with
            | none => rw [hc] at hrl; exact absurd hrl (List.not_mem_nil r)
            | some c =>
              rw [hc] at hrl
              have hre : r = { buildId := b.id, commit := b.sourceVersion, commitTime := c,
                               deployTime := dep.when,
                               leadTimeSeconds := (dep.when - c).tdiv 1000000 } :=
                List.mem_singleton.mp hrl
              subst hre
              rfl
          · exact ih rest hrest r hrr

/-- C3 counterexample: a deployment 1.6 seconds after its commit produces
`leadTimeSeconds = 1` (truncation), while the claimed
`round((deployTime - commitTime).total_seconds())` is 2. -/
theorem c3_counterexample :
    (runPipeline 0 false [c3Build] c3Net none).map (fun p => p.1.leadRows) = .ok [c3Row] ∧
      c3Row.leadTimeSeconds = 1 ∧
      pyRoundSeconds (c3Row.deployTime - c3Row.commitTime) = 2 := by
  refine ⟨by decide, by decide, by decide⟩

/-- C3 witness: the amended theorem applied to the concrete lead-time run. -/
theorem c3_witness :
    leadRowsF 0 c3Net none false [⟨7, 1600000⟩] [c3Build] = .ok ([c3Row], []) ∧
      ∀ r ∈ ([c3Row] : List LeadRow),
        r.leadTimeSeconds = (r.deployTime - r.commitTime).tdiv 1000000 :=
  ⟨by decide,
   c3_lead_seconds_truncated 0 c3Net none false [⟨7, 1600000⟩] [c3Build] ([c3Row], [])
     (by decide)⟩

/-- C4: a Deployment timestamp is recorded for a build iff the first `Job`
record whose lowercased name contains `swap` exists, its result is
`succeeded` case-insensitively, and `utc` resolves its finish time; the
recorded timestamp is exactly that resolved finish time (so a succeeded swap
job with an absent finish time yields no Deployment). -/
theorem c4_deployment_iff (loc : Int) (recs : List TimelineRecord)
    (res : Option Int × Option Int) (h : classify loc recs = .ok res) (t : Int) :
    res.1 = some t ↔
      ∃ j, has_job recs "swap" = some j ∧
        pyLower (pyOrEmpty j.result) = "succeeded" ∧
        utc loc j.finishTime = .ok (some t) := by
  simp only [classify] at h
  split at h
  next sw hsw =>
    split at h
    next hres =>
      cases hutc : utc loc sw.finishTime with
      | error e =>
        rw [hutc] at h
        simp [Bind.bind, Except.bind] at h
      | ok dp =>
        rw [hutc] at h
        cases hfb : failBranch loc (has_job recs "validate") (has_job recs "rollback") with
        | error e =>
          rw [hfb] at h
          simp [Bind.bind, Except.bind] at h
        | ok fp =>
          rw [hfb] at h
          simp only [Bind.bind, Except.bind, Except.ok.injEq] at h
          subst h
          dsimp only
          constructor
          · intro hdp
            exact ⟨sw, hsw, hres, hdp ▸ hutc⟩
          · rintro ⟨j, hj, hjres, hjutc⟩
            rw [hsw] at hj
            cases hj
            rw [hutc] at hjutc
            cases hjutc
            rfl
    next hres =>
      cases h
      simp [hsw, hres]
  next hsw =>
    cases h
    simp [hsw]

/-- C4 witness: the classification of a one-job succeeded-swap timeline. -/
theorem c4_witness :
    classify 0 c4Recs = .ok (some 1800000000, none) ∧
      (((some 1800000000, none) : Option Int × Option Int).1 = some 1800000000 ↔
        ∃ j, has_job c4Recs "swap" = some j ∧
          pyLower (pyOrEmpty j.result) = "succeeded" ∧
          utc 0 j.finishTime = .ok (some 1800000000)) :=
  ⟨by decide, c4_deployment_iff 0 c4Recs (some 1800000000, none) (by decide) 1800000000⟩

/-- `successes_sorted` is sorted by `when`. -/
theorem sorted_successes (deployments : List Ev) :
    (successes_sorted deployments).Sorted (fun a b : Ev => a.when ≤ b.when) := by
  haveI : IsTotal Ev (fun a b : Ev => a.when ≤ b.when) := ⟨fun a b => le_total _ _⟩
  haveI : IsTrans Ev (fun a b : Ev => a.when ≤ b.when) := ⟨fun a b c h1 h2 => le_trans h1 h2⟩
  exact List.sorted_insertionSort _ _

/-- On a `when`-sorted list, the first element strictly past `x` is minimal
among all elements strictly past `x`. -/
theorem find?_min_when :
    ∀ (l : List Ev), l.Sorted (fun a b : Ev => a.when ≤ b.when) →
      ∀ {x : Int} {s : Ev}, l.find? (fun e => decide (x < e.when)) = some s →
      ∀ d ∈ l, x < d.when → s.when ≤ d.when := by
  intro l
  induction l with
  | nil => intro _ x s hfind; simp at hfind
  | cons a l ih =>
    intro hs x s hfind d hd hx
    have hs2 := List.sorted_cons.mp hs
    by_cases ha : x < a.when
    · rw [List.find?_cons_of_pos _ (by simpa using ha)] at hfind
      cases hfind
      rcases List.mem_cons.mp hd with rfl | hdl
      · exact le_refl _
      · exact hs2.1 d hdl
    · rw [List.find?_cons_of_neg _ (by simpa using ha)] at hfind
      rcases List.mem_cons.mp hd with rfl | hdl
      · exact absurd hx ha
      · exact ih hs2.2 hfind d hdl hx

/-- C5: every MTTR row pairs a recorded failure with a strictly later recorded
deployment such that no deployment falls strictly between the two timestamps
(nearest-successor), with `mttrSeconds` the elapsed whole seconds; and a
failure with no strictly later deployment yields no MTTR row. -/
theorem c5_mttr_nearest_successor (deployments failures : List Ev) :
    (∀ row ∈ mttrRows deployments failures,
       row.failedAt < row.restoredAt ∧
       (∃ f ∈ failures, f.buildId = row.failedBuildId ∧ f.when = row.failedAt) ∧
       (∃ d ∈ deployments, d.buildId = row.restoredBuildId ∧ d.when = row.restoredAt) ∧
       (∀ d ∈ deployments, ¬(row.failedAt < d.when ∧ d.when < row.restoredAt)) ∧
       row.mttrSeconds = (row.restoredAt - row.failedAt).tdiv 1000000) ∧
    (∀ f ∈ failures, (∀ d ∈ deployments, d.when ≤ f.when) →
       ∀ row ∈ mttrRows deployments failures,
         ¬(row.failedBuildId = f.buildId ∧ row.failedAt = f.when)) := by
  constructor
  · intro row hrow
    rcases List.mem_filterMap.mp hrow with ⟨f, hf, hfn⟩
    have hfmem : f ∈ failures := (List.perm_insertionSort _ failures).mem_iff.mp hf
    cases hfind : (successes_sorted deployments).find? (fun s => decide (f.when < s.when)) with
    | none => rw [hfind] at hfn; simp at hfn
    | some s =>
      rw [hfind] at hfn
      simp only [Option.some.injEq] at hfn
      subst hfn
      have hslt : f.when < s.when := by simpa using List.find?_some hfind
      have hsmem : s ∈ deployments :=
        (List.perm_insertionSort _ deployments).mem_iff.mp (List.mem_of_find?_eq_some hfind)
      refine ⟨hslt, ⟨f, hfmem, rfl, rfl⟩, ⟨s, hsmem, rfl, rfl⟩, ?_, rfl⟩
      intro d hd hcontra
      rcases hcontra with ⟨hd1, hd2⟩
      dsimp only at hd1 hd2
      have hdss : d ∈ successes_sorted deployments :=
        (List.perm_insertionSort _ deployments).mem_iff.mpr hd
      have := find?_min_when _ (sorted_successes deployments) hfind d hdss hd1
      omega
  · intro f hf hnone row hrow ⟨_, hfa⟩
    rcases List.mem_filterMap.mp hrow with ⟨f2, hf2, hfn⟩
    cases hfind : (successes_sorted deployments).find? (fun s => decide (f2.when < s.when)) with
    | none => rw [hfind] at hfn; simp at hfn
    | some s =>
      rw [hfind] at hfn
      simp only [Option.some.injEq] at hfn
      subst hfn
      have hslt : f2.when < s.when := by simpa using List.find?_some hfind
      have hsmem : s ∈ deployments :=
        (List.perm_insertionSort _ deployments).mem_iff.mp (List.mem_of_find?_eq_some hfind)
      have := hnone s hsmem
      dsimp only at hfa
      omega

/-- C5 witness: the theorem's per-row conjunct applied to a concrete pair. -/
theorem c5_witness :
    c5Row ∈ mttrRows c5Deps c5Fails ∧
      (c5Row.failedAt < c5Row.restoredAt ∧
       (∃ f ∈ c5Fails, f.buildId = c5Row.failedBuildId ∧ f.when = c5Row.failedAt) ∧
       (∃ d ∈ c5Deps, d.buildId = c5Row.restoredBuildId ∧ d.when = c5Row.restoredAt) ∧
       (∀ d ∈ c5Deps, ¬(c5Row.failedAt < d.when ∧ d.when < c5Row.restoredAt)) ∧
       c5Row.mttrSeconds = (c5Row.restoredAt - c5Row.failedAt).tdiv 1000000) :=
  ⟨by decide, (c5_mttr_nearest_successor c5Deps c5Fails).1 c5Row (by decide)⟩

/-- C6: the reported change-failure-rate percentage is
`round(failedCount / totalDeployments * 100, 2)` when there are deployments
and `0.0` otherwise, where `totalDeployments` is the number of deployments and
`failedChanges` the number of failure events. -/
theorem c6_change_failure_rate (deployments failures : List Ev) :
    (deployments ≠ [] →
      (cfrSummary deployments failures).changeFailureRatePct =
        pyRound2 (((failures.length : ℚ) /
          ((cfrSummary deployments failures).totalDeployments : ℚ)) * 100)) ∧
    (deployments = [] → (cfrSummary deployments failures).changeFailureRatePct = 0) ∧
    (cfrSummary deployments failures).totalDeployments = deployments.length ∧
    (cfrSummary deployments failures).failedChanges = failures.length := by
  have hlen : (successes_sorted deployments).length = deployments.length :=
    (List.perm_insertionSort _ _).length_eq
  refine ⟨?_, ?_, hlen, rfl⟩
  · intro h
    simp [cfrSummary, cfr_pct, h, hlen]
  · intro h
    subst h
    simp [cfrSummary, cfr_pct, pyRound2, roundHalfEvenDiv]
    norm_num

/-- C6 witness: the nonempty-deployments conjunct at a concrete input. -/
theorem c6_witness :
    ([⟨1, 0⟩] : List Ev) ≠ [] ∧
      (cfrSummary [⟨1, 0⟩] ([] : List Ev)).changeFailureRatePct =
        pyRound2 (((([] : List Ev).length : ℚ) /
          ((cfrSummary [⟨1, 0⟩] ([] : List Ev)).totalDeployments : ℚ)) * 100) :=
  ⟨by decide, (c6_change_failure_rate [⟨1, 0⟩] []).1 (by decide)⟩

/-- The pagination loop appends the full page chain to its accumulator when
given at least as much fuel as there are pages. -/
theorem list_builds_loop_chain (srv : Option String → PageResp)
    {tok : Option String} {pages : List (List Int)} (hchain : PageChain srv tok pages) :
    ∀ (acc : List Int) (fuel : Nat), pages.length ≤ fuel →
      list_builds_loop srv fuel tok acc = some (acc ++ pages.flatten) := by
  induction hchain with
  | last htok =>
    intro acc fuel hf
    match fuel, hf with
    | fuel + 1, _ => simp [list_builds_loop, htok]
  | step htok _ ih =>
    intro acc fuel hf
    match fuel, hf with
    | fuel + 1, hf =>
      have hlen : _ ≤ fuel := Nat.le_of_succ_le_succ hf
      simp only [list_builds_loop, htok, if_pos]
      rw [ih _ fuel (by simpa using hlen)]
      simp

/-- C7: `list_builds` follows the server's continuation tokens until a falsy
one and returns the concatenation of every page's `value` list — no page is
omitted. -/
theorem c7_list_builds_concatenates_all_pages
    (srv : Option String → PageResp) (pages : List (List Int)) (fuel : Nat)
    (hchain : PageChain srv none pages) (hfuel : pages.length ≤ fuel) :
    list_builds srv fuel = some pages.flatten := by
  simpa [list_builds] using list_builds_loop_chain srv hchain [] fuel hfuel

/-- C7 witness: the theorem applied to a three-page server. -/
theorem c7_witness :
    PageChain c7Srv none [[1, 2], [3], [4, 5]] ∧
      ([[1, 2], [3], [4, 5]] : List (List Int)).length ≤ 3 ∧
      list_builds c7Srv 3 = some [1, 2, 3, 4, 5] :=
  have hc : PageChain c7Srv none [[1, 2], [3], [4, 5]] :=
    .step (by decide) (.step (by decide) (.last (by decide)))
  ⟨hc, by decide, by
    simpa using c7_list_builds_concatenates_all_pages c7Srv [[1, 2], [3], [4, 5]] 3 hc
      (by decide)⟩

/-- C8: the owner/repo identity resolution of `get_commit_time` equals the
spec's ordered chain — explicit override, full-name-style properties, API-URL
`/repos/` segment, clone-URL path with `.git` stripped, then name/id with a
slash, first match winning; a descriptor whose only usable property is the
clone URL `https://github.com/acme/app.git` resolves to `acme/app`, and with
no API-URL property the commit lookup URL is the public default. -/
theorem c8_owner_repo_resolution :
    (∀ (override : Option String) (repo : Option Repo),
       resolveOwnerRepo override repo = specResolveOwnerRepo override repo) ∧
    resolveOwnerRepo none (some c8Repo) = some "acme/app" ∧
    (∀ sha : String, github_commit_api "acme/app" sha (propsOf (some c8Repo)) =
       "https://api.github.com/repos/acme/app/commits/" ++ sha) := by
  refine ⟨?_, by decide, ?_⟩
  · intro ov repo
    cases repo <;> rfl
  · intro sha
    show "https://api.github.com/repos/" ++ "acme/app" ++ "/commits/" ++ sha = _
    rw [show ("https://api.github.com/repos/" ++ "acme/app" ++ "/commits/" : String) =
          "https://api.github.com/repos/acme/app/commits/" from by decide]

/-- The computed part of a single build's classification does not depend on
verbosity. -/
theorem classifyB_fst (loc : Int) (v : Bool) (b : Build) :
    (classifyB loc v b).map Prod.fst = (classifyB loc false b).map Prod.fst := by
  simp only [classifyB]
  cases classify loc b.recs <;> rfl

/-- The event collections do not depend on verbosity. -/
theorem collectEvents_fst (loc : Int) (v : Bool) :
    ∀ builds : List Build,
      (collectEvents loc v builds).map Prod.fst =
        (collectEvents loc false builds).map Prod.fst := by
  intro builds
  induction builds with
  | nil => rfl
  | cons b bs ih =>
    simp only [collectEvents]
    have hb := classifyB_fst loc v b
    cases hv : classifyB loc v b with
    | error e =>
      cases hf : classifyB loc false b with
      | error e2 => simp [Bind.bind, Except.bind, Except.map]
      | ok r2 => rw [hv, hf] at hb; simp [Except.map] at hb
    | ok r =>
      cases hf : classifyB loc false b with
      | error e2 => rw [hv, hf] at hb; simp [Except.map] at hb
      | ok r2 =>
        rw [hv, hf] at hb
        simp only [Except.map, Except.ok.injEq] at hb
        cases hcv : collectEvents loc v bs with
        | error e =>
          cases hcf : collectEvents loc false bs with
          | error e2 => simp [Bind.bind, Except.bind, Except.map]
          | ok rest2 => rw [hcv, hcf] at ih; simp [Except.map] at ih
        | ok rest =>
          cases hcf : collectEvents loc false bs with
          | error e2 => rw [hcv, hcf] at ih; simp [Except.map] at ih
          | ok rest2 =>
            rw [hcv, hcf] at ih
            simp only [Except.map, Except.ok.injEq] at ih
            simp [Bind.bind, Except.bind, Except.map, hb, ih]

/-- The resolved commit time does not depend on verbosity. -/
theorem get_commit_time_fst (loc : Int) (b : Build) (ado : AdoNet) (gh : GhNet)
    (ovr : Option String) (v : Bool) :
    (get_commit_time loc b ado gh ovr v).map Prod.fst =
      (get_commit_time loc b ado gh ovr false).map Prod.fst := by
  cases ado <;> cases gh <;> simp only [get_commit_time] <;> (repeat' split) <;> rfl

/-- The Lead Time rows do not depend on verbosity. -/
theorem leadRowsF_fst (loc : Int) (net : Net) (ovr : Option String) (v : Bool)
    (deployments : List Ev) :
    ∀ builds : List Build,
      (leadRowsF loc net ovr v deployments builds).map Prod.fst =
        (leadRowsF loc net ovr false deployments builds).map Prod.fst := by
  intro builds
  induction builds with
  | nil => rfl
  | cons b bs ih =>
    simp only [leadRowsF]
    split
    next => exact ih
    next dep hdep =>
      have hg := get_commit_time_fst loc b (net.ado b.id) (net.gh b.id) ovr v
      cases hv : get_commit_time loc b (net.ado b.id) (net.gh b.id) ovr v with
      | error e =>
        cases hf : get_commit_time loc b (net.ado b.id) (net.gh b.id) ovr false with
        | error e2 => simp [Bind.bind, Except.bind, Except.map]
        | ok ct2 => rw [hv, hf] at hg; simp [Except.map] at hg
      | ok ct =>
        cases hf : get_commit_time loc b (net.ado b.id) (net.gh b.id) ovr false with
        | error e2 => rw [hv, hf] at hg; simp [Except.map] at hg
        | ok ct2 =>
          rw [hv, hf] at hg
          simp only [Except.map, Except.ok.injEq] at hg
          cases hcv : leadRowsF loc net ovr v deployments bs with
          | error e =>
            cases hcf : leadRowsF loc net ovr false deployments bs with
            | error e2 => simp [Bind.bind, Except.bind, Except.map]
            | ok rest2 => rw [hcv, hcf] at ih; simp [Except.map] at ih
          | ok rest =>
            cases hcf : leadRowsF loc net ovr false deployments bs with
            | error e2 => rw [hcv, hcf] at ih; simp [Except.map] at ih
            | ok rest2 =>
              rw [hcv, hcf] at ih
              simp only [Except.map, Except.ok.injEq] at ih
              simp [Bind.bind, Except.bind, Except.map, hg, ih]

/-- C9: running the pipeline with the verbose flag on and off produces
identical computed outputs — deployments, failures, daily aggregates, the
change-failure-rate summary, lead-time rows and MTTR rows; verbosity gates
only the diagnostic log. -/
theorem c9_verbose_does_not_affect_outputs (loc : Int) (builds : List Build) (net : Net)
    (ovr : Option String) :
    (runPipeline loc true builds net ovr).map Prod.fst =
      (runPipeline loc false builds net ovr).map Prod.fst := by
  simp only [runPipeline]
  have hce := collectEvents_fst loc true builds
  cases h1 : collectEvents loc true builds with
  | error e =>
    cases h2 : collectEvents loc false builds with
    | error e2 => simp [Bind.bind, Except.bind, Except.map]
    | ok ev2 => rw [h1, h2] at hce; simp [Except.map] at hce
  | ok ev =>
    cases h2 : collectEvents loc false builds with
    | error e2 => rw [h1, h2] at hce; simp [Except.map] at hce
    | ok ev2 =>
      rw [h1, h2] at hce
      simp only [Except.map, Except.ok.injEq] at hce
      have hce1 : ev.1.1 = ev2.1.1 := by rw [hce]
      have hce2 : ev.1.2 = ev2.1.2 := by rw [hce]
      simp only [Bind.bind, Except.bind, hce1, hce2]
      have hlr := leadRowsF_fst loc net ovr true ev2.1.1 builds
      cases hl1 : leadRowsF loc net ovr true ev2.1.1 builds with
      | error e =>
        rw [hl1] at hlr
        cases hl2 : leadRowsF loc net ovr false ev2.1.1 builds with
        | error e2 => simp [Except.map]
        | ok lr2 => rw [hl2] at hlr; simp [Except.map] at hlr
      | ok lr =>
        rw [hl1] at hlr
        cases hl2 : leadRowsF loc net ovr false ev2.1.1 builds with
        | error e2 => rw [hl2] at hlr; simp [Except.map] at hlr
        | ok lr2 =>
          rw [hl2] at hlr
          simp only [Except.map, Except.ok.injEq] at hlr
          simp [Except.map, hlr]

/-! Lemmas for C10: parsing succeeds on every rendered well-formed input. -/

theorem charVal_digitChar {d : Nat} (hd : d ≤ 9) : charVal (digitChar d) = some d := by
  interval_cases d <;> decide

theorem digitChar_ne_Z {d : Nat} (hd : d ≤ 9) : digitChar d ≠ 'Z' := by
  interval_cases d <;> decide

theorem parse2_render2 {n : Nat} (hn : n ≤ 99) (rest : List Char) :
    parse2 (render2 n ++ rest) = some (n, rest) := by
  have h1 : n / 10 ≤ 9 := by omega
  have h2 : n % 10 ≤ 9 := by omega
  simp [render2, parse2, charVal_digitChar h1, charVal_digitChar h2]
  omega

theorem parse4_render4 {n : Nat} (hn : n ≤ 9999) (rest : List Char) :
    parse4 (render4 n ++ rest) = some (n, rest) := by
  have h1 : n / 1000 ≤ 9 := by omega
  have h2 : n / 100 % 10 ≤ 9 := by omega
  have h3 : n / 10 % 10 ≤ 9 := by omega
  have h4 : n % 10 ≤ 9 := by omega
  simp [render4, parse4, charVal_digitChar h1, charVal_digitChar h2, charVal_digitChar h3,
        charVal_digitChar h4]
  omega

theorem expectCh_cons (c : Char) (l : List Char) : expectCh c (c :: l) = some l := by
  simp [expectCh]

theorem takeDigits_map (ds : List Nat) (hds : ∀ d ∈ ds, d ≤ 9) (rest : List Char)
    (hrest : ∀ c, rest.head? = some c → charVal c = none) :
    takeDigits (ds.map digitChar ++ rest) = (ds, rest) := by
  induction ds with
  | nil =>
    cases rest with
    | nil => rfl
    | cons c r => simp [takeDigits, hrest c rfl]
  | cons d ds ih =>
    simp [takeDigits, charVal_digitChar (hds d (List.mem_cons_self d ds)),
          ih (fun x hx => hds x (List.mem_cons_of_mem d hx))]

theorem parseFrac_noFrac (l : List Char) (hl : ∀ c, l.head? = some c → c ≠ '.') :
    parseFrac l = some (0, l) := by
  cases l with
  | nil => rfl
  | cons c r => simp [parseFrac, hl c rfl]

theorem parseFrac_frac (d : Nat) (ds : List Nat) (hds : ∀ x ∈ d :: ds, x ≤ 9)
    (rest : List Char) (hrest : ∀ c, rest.head? = some c → charVal c = none) :
    parseFrac ('.' :: ((d :: ds).map digitChar ++ rest)) =
      some (fracMicros (d :: ds), rest) := by
  have ht := takeDigits_map (d :: ds) hds rest hrest
  simp only [List.map_cons, List.cons_append] at ht
  simp [parseFrac, ht]

theorem parseOff_numeric (neg : Bool) (oh om : Nat) (hoh : oh ≤ 99) (hom : om ≤ 59)
    (hrange : oh * 60 + om < 1440) :
    parseOff ((if neg then '-' else '+') :: (render2 oh ++ ':' :: render2 om)) =
      some (some ((if neg then (-1 : Int) else 1) * ((oh : Int) * 3600 + (om : Int) * 60) *
        1000000)) := by
  have h2 : parse2 (render2 om ++ []) = some (om, []) := parse2_render2 (by omega) []
  rw [List.append_nil] at h2
  cases neg <;>
    simp [parseOff, parse2_render2 hoh, expectCh_cons, h2, hom, hrange]

theorem replaceZ_append (a b : List Char) : replaceZ (a ++ b) = replaceZ a ++ replaceZ b := by
  induction a with
  | nil => rfl
  | cons c r ih => by_cases hc : c = 'Z' <;> simp [replaceZ, hc, ih]

theorem replaceZ_cons_ne {c : Char} (hc : c ≠ 'Z') (l : List Char) :
    replaceZ (c :: l) = c :: replaceZ l := by
  simp [replaceZ, hc]

theorem replaceZ_noZ (l : List Char) (h : ∀ c ∈ l, c ≠ 'Z') : replaceZ l = l := by
  induction l with
  | nil => rfl
  | cons c r ih =>
    simp [replaceZ, h c (List.mem_cons_self c r),
          ih (fun x hx => h x (List.mem_cons_of_mem c hx))]

theorem render2_noZ {n : Nat} (hn : n ≤ 99) : ∀ c ∈ render2 n, c ≠ 'Z' := by
  intro c hc
  simp [render2] at hc
  rcases hc with rfl | rfl
  · exact digitChar_ne_Z (by omega)
  · exact digitChar_ne_Z (by omega)

theorem render4_noZ {n : Nat} (hn : n ≤ 9999) : ∀ c ∈ render4 n, c ≠ 'Z' := by
  intro c hc
  simp [render4] at hc
  rcases hc with rfl | rfl | rfl | rfl
  · exact digitChar_ne_Z (by omega)
  · exact digitChar_ne_Z (by omega)
  · exact digitChar_ne_Z (by omega)
  · exact digitChar_ne_Z (by omega)

theorem renderFrac_noZ (ds : List Nat) (hds : ∀ d ∈ ds, d ≤ 9) :
    ∀ c ∈ renderFrac ds, c ≠ 'Z' := by
  intro c hc
  simp only [renderFrac] at hc
  split at hc
  · simp at hc
  · rcases List.mem_cons.mp hc with rfl | hmem
    · decide
    · rcases List.mem_map.mp hmem with ⟨d, hd, rfl⟩
      exact digitChar_ne_Z (hds d hd)

/-- The head of the (Z-normalised) offset tail is never a digit nor a dot. -/
theorem offTail_head (off : OffSpec) :
    ∀ c, (replaceZ (renderOff off)).head? = some c → charVal c = none ∧ c ≠ '.' := by
  intro c hc
  cases off with
  | noOffset => simp [renderOff, replaceZ] at hc
  | zulu =>
    simp [renderOff, replaceZ] at hc
    subst hc
    decide
  | numeric neg oh om =>
    cases neg <;>
      simp [renderOff, replaceZ_cons_ne (show ('+' : Char) ≠ 'Z' by decide),
            replaceZ_cons_ne (show ('-' : Char) ≠ 'Z' by decide)] at hc <;>
      subst hc <;> decide

theorem parseDate_render {y mo d : Nat} (hy : y ≤ 9999) (hmo : mo ≤ 99) (hd : d ≤ 99)
    (rest : List Char) :
    parseDate (render4 y ++ '-' :: (render2 mo ++ '-' :: (render2 d ++ rest))) =
      some ((y, mo, d), rest) := by
  simp [parseDate, parse4_render4 hy, expectCh_cons, parse2_render2 hmo, parse2_render2 hd,
        Option.bind]

theorem parseTime_render {h mi s : Nat} (hh : h ≤ 23) (hmi : mi ≤ 59) (hs : s ≤ 59)
    {fr : List Char} {us : Nat} {rest : List Char} (hfr : parseFrac fr = some (us, rest)) :
    parseTime (render2 h ++ ':' :: (render2 mi ++ ':' :: (render2 s ++ fr))) =
      some ((h * 3600 + mi * 60 + s) * 1000000 + us, rest) := by
  simp [parseTime, parse2_render2 (show h ≤ 99 by omega), parse2_render2 (show mi ≤ 99 by omega),
        parse2_render2 (show s ≤ 99 by omega), expectCh_cons, hfr, hh, hmi, hs, Option.bind]

/-- Parsing succeeds on the `Z`-normalised rendering of every well-formed
timestamp. -/
theorem fromIso_render (x : IsoStr) :
    ∃ p, fromIso (replaceZ (renderIso x).data) = some p := by
  have hrep : replaceZ (renderIso x).data =
      render4 x.year ++ '-' :: (render2 x.month ++ '-' :: (render2 x.day ++ 'T' ::
        (render2 x.hour ++ ':' :: (render2 x.minute ++ ':' ::
        (render2 x.second ++ (renderFrac x.frac ++ replaceZ (renderOff x.off))))))) := by
    show replaceZ (render4 x.year ++ '-' :: (render2 x.month ++ '-' :: (render2 x.day ++ 'T' ::
        (render2 x.hour ++ ':' :: (render2 x.minute ++ ':' ::
        (render2 x.second ++ (renderFrac x.frac ++ renderOff x.off))))))) = _
    rw [replaceZ_append, replaceZ_noZ _ (render4_noZ x.year_le),
        replaceZ_cons_ne (by decide), replaceZ_append,
        replaceZ_noZ _ (render2_noZ (show x.month ≤ 99 by have := x.month_le; omega)),
        replaceZ_cons_ne (by decide), replaceZ_append,
        replaceZ_noZ _ (render2_noZ (show x.day ≤ 99 by
          have h1 := x.day_le
          have h2 : daysInMonth x.year x.month ≤ 31 := by
            unfold daysInMonth
            split_ifs <;> omega
          omega)),
        replaceZ_cons_ne (by decide), replaceZ_append,
        replaceZ_noZ _ (render2_noZ (show x.hour ≤ 99 by have := x.hour_le; omega)),
        replaceZ_cons_ne (by decide), replaceZ_append,
        replaceZ_noZ _ (render2_noZ (show x.minute ≤ 99 by have := x.minute_le; omega)),
        replaceZ_cons_ne (by decide), replaceZ_append,
        replaceZ_noZ _ (render2_noZ (show x.second ≤ 99 by have := x.second_le; omega)),
        replaceZ_append, replaceZ_noZ _ (renderFrac_noZ x.frac x.frac_digits)]
  rw [hrep]
  have hfr : ∃ us, parseFrac (renderFrac x.frac ++ replaceZ (renderOff x.off)) =
      some (us, replaceZ (renderOff x.off)) := by
    cases hfx : x.frac with
    | nil =>
      refine ⟨0, ?_⟩
      simp only [renderFrac, List.isEmpty_nil, if_pos, List.nil_append]
      exact parseFrac_noFrac _ (fun c hc => (offTail_head x.off c hc).2)
    | cons d ds =>
      refine ⟨fracMicros (d :: ds), ?_⟩
      have hrf : renderFrac (d :: ds) = '.' :: (d :: ds).map digitChar := by
        simp [renderFrac]
      rw [hrf, List.cons_append]
      exact parseFrac_frac d ds (hfx ▸ x.frac_digits) _
        (fun c hc => (offTail_head x.off c hc).1)
  obtain ⟨us, hfr⟩ := hfr
  have hoff : ∃ w, parseOff (replaceZ (renderOff x.off)) = some w := by
    cases hoffx : x.off with
    | noOffset => exact ⟨none, rfl⟩
    | zulu => exact ⟨some 0, by decide⟩
    | numeric neg oh om =>
      have h3 : oh * 60 + om < 1440 := (x.off_ok neg oh om hoffx).2
      have h1 : oh ≤ 99 := by omega
      have h2 : om ≤ 59 := (x.off_ok neg oh om hoffx).1
      have hnoz : replaceZ (renderOff (.numeric neg oh om)) = renderOff (.numeric neg oh om) := by
        apply replaceZ_noZ
        intro c hc
        cases neg <;> simp [renderOff] at hc <;>
          rcases hc with rfl | hc2 | rfl | hc2 <;>
            first
              | decide
              | exact render2_noZ (show oh ≤ 99 by omega) c hc2
              | exact render2_noZ (show om ≤ 99 by omega) c hc2
      rw [hnoz]
      exact ⟨_, parseOff_numeric neg oh om h1 h2 h3⟩
  obtain ⟨w, hoff⟩ := hoff
  have hpd := parseDate_render x.year_le
    (show x.month ≤ 99 by have := x.month_le; omega)
    (show x.day ≤ 99 by
      have h1 := x.day_le
      have h2 : daysInMonth x.year x.month ≤ 31 := by
        unfold daysInMonth; split_ifs <;> omega
      omega)
    ('T' :: (render2 x.hour ++ ':' :: (render2 x.minute ++ ':' ::
      (render2 x.second ++ (renderFrac x.frac ++ replaceZ (renderOff x.off))))))
  have hpt := parseTime_render x.hour_le x.minute_le x.second_le hfr
  simp [fromIso, hpd, expectCh_cons, hpt, hoff, Option.bind,
        x.year_pos, x.month_pos, x.month_le, x.day_pos, x.day_le]

/-- C10: `utc` is total on absent input — `utc(None)` and `utc("")` return
`None` rather than raising — and on every well-formed ISO-8601 string of the
modelled subset (with or without a trailing `Z`) it returns a defined instant
normalised to UTC. -/
theorem c10_utc_total (loc : Int) :
    utc loc none = .ok none ∧ utc loc (some "") = .ok none ∧
    ∀ x : IsoStr, ∃ t : Int, utc loc (some (renderIso x)) = .ok (some t) := by
  refine ⟨rfl, by simp [utc], ?_⟩
  intro x
  obtain ⟨⟨naive, off⟩, hp⟩ := fromIso_render x
  have hne : renderIso x ≠ "" := by
    intro h
    have := congrArg String.data h
    simp [renderIso, render4] at this
  cases off with
  | some o => exact ⟨naive - o, by simp [utc, hne, hp]⟩
  | none => exact ⟨naive - loc, by simp [utc, hne, hp]⟩
